import Mathlib

/-!
Verification of the document resolution and rendering pipeline of the
docs-service repository (src/app/routes/docs.py), shallowly embedded in Lean.

Paths are modelled as lists of segments (the POSIX anchor component is
omitted; it never begins with a dot and is not a plausible category filter).
The filesystem is a finite list of regular files (with optional readable
UTF-8 content; `none` models a read/decode failure) plus a list of
directories.  Python's `pathlib` keeps `..` segments in a `Path` object and
only the operating system resolves them at `exists()` / `is_file()` /
`is_dir()` / `open()` time; the embedding mirrors this by keeping raw
segment lists and resolving `..` only inside the `os*` checks and `read`.
The Markdown-to-HTML conversion is performed by the external `markdown`
library and is outside the model; no claim concerns the HTML text.

String primitives (`split`, `strip`, `startswith`, `endswith`, `join`) are
implemented over `List Char` by structural recursion, following Python's
`str` semantics.
-/

namespace DocsService

/-- Prefix test on character lists (Python slice comparison). -/
def listPre : List Char → List Char → Bool
  | [], _ => true
  | _ :: _, [] => false
  | a :: as, b :: bs => a = b && listPre as bs

/-- Python `s.startswith(t)`. -/
def pyStartsWith (s t : String) : Bool := listPre t.toList s.toList

/-- Python `s.endswith(t)`. -/
def pyEndsWith (s t : String) : Bool := listPre t.toList.reverse s.toList.reverse

/-- Whitespace characters stripped by Python's `str.strip()` (ASCII subset;
exotic Unicode whitespace does not occur in any input considered here). -/
def pyIsSpace (c : Char) : Bool :=
  c = ' ' || c = '\t' || c = '\n' || c = '\r' || c = Char.ofNat 11 || c = Char.ofNat 12

/-- Drop characters satisfying `p` from both ends of a string, like
Python's `str.strip(chars)`. -/
def trimWhile (p : Char → Bool) (s : String) : String :=
  String.mk (((s.toList.dropWhile p).reverse.dropWhile p).reverse)

/-- Python `s.strip()`. -/
def pyStrip (s : String) : String := trimWhile pyIsSpace s

/-- Python `s.strip("/")`. -/
def stripSlashes (s : String) : String := trimWhile (fun c => c = '/') s

/-- Python `s.strip(c)` for a single character `c`. -/
def stripChar (c : Char) (s : String) : String := trimWhile (fun x => x = c) s

/-- The single-quote character (used by `value.strip("'")`). -/
def squote : Char := Char.ofNat 39

/-- Splitting on a non-empty separator, scanning left to right; `fuel`
bounds the recursion and is chosen `≥` the input length so it never runs
out. -/
def splitListAux (sep : List Char) (acc : List Char) : Nat → List Char → List (List Char)
  | _, [] => [acc.reverse]
  | 0, l => [acc.reverse ++ l]
  | fuel + 1, c :: rest =>
      if listPre sep (c :: rest) then
        acc.reverse :: splitListAux sep [] fuel ((c :: rest).drop sep.length)
      else
        splitListAux sep (c :: acc) fuel rest

/-- Python `s.split(sep)` for a non-empty separator. -/
def pySplitOn (sep s : String) : List String :=
  (splitListAux sep.toList [] s.toList.length s.toList).map String.mk

/-- Concatenation with separators (Python `sep.join(parts)`). -/
def joinSep (sep : List Char) : List (List Char) → List Char
  | [] => []
  | [a] => a
  | a :: rest => a ++ sep ++ joinSep sep rest

/-- Python `sep.join(parts)` on strings. -/
def pyIntercalate (sep : String) (parts : List String) : String :=
  String.mk (joinSep sep.toList (parts.map String.toList))

/-- Python `s.split(sep, 1)`: split on the first occurrence only. -/
def pySplit1 (sep s : String) : List String :=
  match pySplitOn sep s with
  | [] => []
  | [a] => [a]
  | a :: rest => [a, pyIntercalate sep rest]

/-- Python `s.split(sep, 2)`: split on the first two occurrences only. -/
def pySplit2 (sep s : String) : List String :=
  match pySplitOn sep s with
  | [] => []
  | [a] => [a]
  | [a, b] => [a, b]
  | a :: b :: rest => [a, b, pyIntercalate sep rest]

/-- Segment list of a relative path string as `pathlib` parses it: split on
`/`, drop empty components and `.` components (pathlib normalizes both away
but keeps `..`). -/
def pathParts (s : String) : List String :=
  (pySplitOn "/" s).filter (fun seg => seg ≠ "" && seg ≠ ".")

/-- Resolution of `..` segments as the operating system performs it on an
absolute path (no symlinks in the model; `..` at the filesystem root stays
at the root, as on POSIX). -/
def resolveDots (acc : List String) : List String → List String
  | [] => acc
  | seg :: rest =>
      if seg = ".." then resolveDots acc.dropLast rest
      else resolveDots (acc ++ [seg]) rest

/-- A regular file: absolute path segments, optional readable UTF-8 content
(`none` models an unreadable/undecodable file), and its `stat` byte size. -/
structure FileEnt where
  path : List String
  content : Option String
  size : Nat
deriving DecidableEq

/-- A filesystem snapshot: regular files and directories. -/
structure FS where
  files : List FileEnt
  dirs : List (List String)
deriving DecidableEq

/-- Resolved path `p` names a regular file. -/
def FS.isFile (fs : FS) (p : List String) : Bool :=
  fs.files.any (fun fe => fe.path == p)

/-- Resolved path `p` names a directory. -/
def FS.isDir (fs : FS) (p : List String) : Bool :=
  fs.dirs.any (fun d => d == p)

/-- Python `Path.is_file()` on a raw (unresolved) path. -/
def FS.osIsFile (fs : FS) (raw : List String) : Bool :=
  fs.isFile (resolveDots [] raw)

/-- Python `Path.is_dir()` on a raw (unresolved) path. -/
def FS.osIsDir (fs : FS) (raw : List String) : Bool :=
  fs.isDir (resolveDots [] raw)

/-- Python `Path.exists()` on a raw (unresolved) path. -/
def FS.osExists (fs : FS) (raw : List String) : Bool :=
  fs.osIsFile raw || fs.osIsDir raw

/-- Python `open(p).read()` on a raw path: `some` content on success,
`none` when the file is missing, is a directory, or cannot be read or
decoded as UTF-8. -/
def FS.read (fs : FS) (raw : List String) : Option String :=
  match fs.files.find? (fun fe => fe.path == resolveDots [] raw) with
  | some fe => fe.content
  | none => none

/-- The trailing directory-index block of `find_doc_file` (docs.py lines
79-86): if the current `doc_path` is a directory, return `README.md` then
`index.md` inside it, whichever exists first.  Note the Python code tests
`index_path.exists()`, not `is_file()`. -/
def dirFallback (fs : FS) (docPath : List String) : Option (List String) :=
  if fs.osIsDir docPath then
    if fs.osExists (docPath ++ ["README.md"]) then some (docPath ++ ["README.md"])
    else if fs.osExists (docPath ++ ["index.md"]) then some (docPath ++ ["index.md"])
    else none
  else none

/-- Embedding of `find_doc_file` (docs.py lines 51-88).  The Python local
`doc_path` is reassigned to `docs_root / f"{path}.md"` inside the
extension-inference branch, so the subsequent `is_dir` check inspects that
reassigned path; the embedding reproduces this faithfully. -/
def find_doc_file (fs : FS) (root : List String) (path0 : String) : Option (List String) :=
  let path := stripSlashes path0
  if path = "" then none
  else
    let docPath := root ++ pathParts path
    if fs.osExists docPath && fs.osIsFile docPath then some docPath
    else if !(pyEndsWith path ".md" || pyEndsWith path ".markdown") then
      let docPath2 := root ++ pathParts (path ++ ".md")
      if fs.osExists docPath2 && fs.osIsFile docPath2 then some docPath2
      else dirFallback fs docPath2
    else dirFallback fs docPath

/-- Insertion into a Python `dict` viewed as an insertion-ordered
association list: overwrite in place when the key is present, append
otherwise. -/
def dictInsert (m : List (String × String)) (k v : String) : List (String × String) :=
  if m.any (fun p => p.1 == k) then m.map (fun p => if p.1 == k then (k, v) else p)
  else m ++ [(k, v)]

/-- One iteration of the front-matter loop (docs.py lines 112-115): lines
with a colon contribute `key.strip()` mapped to the value stripped of
whitespace and surrounding quotes; lines without a colon are skipped. -/
def fmStep (m : List (String × String)) (line : String) : List (String × String) :=
  match pySplit1 ":" line with
  | [k, v] => dictInsert m (pyStrip k) (stripChar squote (stripChar '"' (pyStrip v)))
  | _ => m

/-- The front-matter block parser: per-line key/value extraction. -/
def parseFrontMatterLines (fm : String) : List (String × String) :=
  (pySplitOn "\n" fm).foldl fmStep []

/-- Embedding of `parse_markdown` (docs.py lines 91-125) restricted to the
front-matter/body split; the Markdown-to-HTML conversion of the body and
the prefixed Pygments stylesheet are the external libraries' work and are
not modelled.  Returns `(body, metadata)`. -/
def parse_markdown (content : String) : String × List (String × String) :=
  if pyStartsWith content "---" then
    match pySplit2 "---" content with
    | [_, fmRaw, rest] => (pyStrip rest, parseFrontMatterLines (pyStrip fmRaw))
    | _ => (content, [])
  else (content, [])

/-- The scanning loop of `extract_title`: first line starting with `"# "`
yields its stripped remainder. -/
def extractTitleGo : List String → String
  | [] => "Documentation"
  | line :: rest =>
      if pyStartsWith line "# " then pyStrip (String.mk (line.toList.drop 2))
      else extractTitleGo rest

/-- Embedding of `extract_title` (docs.py lines 128-134). -/
def extract_title (content : String) : String :=
  extractTitleGo (pySplitOn "\n" content)

/-- Python `pathlib.PurePath.stem`: the file name with its last suffix
removed (a leading or trailing dot does not start a suffix). -/
def stem (name : String) : String :=
  let cs := name.toList
  match cs.reverse.findIdx? (fun c => c = '.') with
  | some j =>
      let i := cs.length - 1 - j
      if 0 < i ∧ i < cs.length - 1 then String.mk (cs.take i) else name
  | none => name

/-- One row of the listing response (docs.py lines 184-189). -/
structure CatalogEntry where
  path : String
  title : String
  size : Nat
  category : String
deriving DecidableEq

/-- A file lies strictly below the root directory (what
`docs_root.glob("**/*.md")` enumerates ranges over). -/
def underRoot (root p : List String) : Bool :=
  decide (p.take root.length = root) && decide (root.length < p.length)

/-- The candidates produced by the two glob calls (docs.py line 159):
files under the root whose name ends in `.md`, then those ending in
`.markdown`.  pathlib's glob does not skip dot-files; the explicit hidden
check happens later. -/
def candidateFiles (fs : FS) (root : List String) : List FileEnt :=
  (fs.files.filter (fun fe => underRoot root fe.path && pyEndsWith (fe.path.getLastD "") ".md"))
    ++ (fs.files.filter (fun fe =>
        underRoot root fe.path && pyEndsWith (fe.path.getLastD "") ".markdown"))

/-- The two `continue` guards of the listing loop (docs.py lines 162-169):
skip when any segment of the file's full path starts with a dot, and, when
a category filter is given, skip unless it occurs among the full path's
segments (`category not in md_file.parts`). -/
def keepFile (category : Option String) (fe : FileEnt) : Bool :=
  !(fe.path.any (fun part => pyStartsWith part ".")) &&
    (match category with
     | some c => fe.path.contains c
     | none => true)

/-- The listing entry built for one candidate file (docs.py lines
171-189): relative path string, title from the file's content (falling
back to the filename stem when the read fails), byte size, and category
(first relative segment when nested, else "root"). -/
def entryOf (root : List String) (fe : FileEnt) : CatalogEntry :=
  let rel := fe.path.drop root.length
  { path := pyIntercalate "/" rel
    title :=
      match fe.content with
      | some c => extract_title c
      | none => stem (fe.path.getLastD "")
    size := fe.size
    category := if 1 < rel.length then rel.headD "root" else "root" }

/-- Lexicographic order on character lists by code point (Python string
comparison). -/
def lexLt : List Char → List Char → Bool
  | [], [] => false
  | [], _ :: _ => true
  | _ :: _, [] => false
  | a :: as, b :: bs => decide (a.toNat < b.toNat) || (a = b && lexLt as bs)

/-- Python `a < b` on strings. -/
def pyStrLt (a b : String) : Bool := lexLt a.toList b.toList

/-- Ordered insertion for the final `files.sort(key=lambda x: x["path"])`. -/
def insertByPath (e : CatalogEntry) : List CatalogEntry → List CatalogEntry
  | [] => [e]
  | x :: xs =>
      if pyStrLt e.path x.path || e.path == x.path then e :: x :: xs
      else x :: insertByPath e xs

/-- Stable sort of entries ascending by path string. -/
def sortByPath : List CatalogEntry → List CatalogEntry
  | [] => []
  | x :: xs => insertByPath x (sortByPath xs)

/-- Embedding of `list_docs` (docs.py lines 137-196): enumerate markdown
files under the root, apply the hidden-segment and category guards, build
one entry per surviving file, and sort by relative path string. -/
def list_docs (fs : FS) (root : List String) (category : Option String) : List CatalogEntry :=
  sortByPath (((candidateFiles fs root).filter (keepFile category)).map (entryOf root))

/-- The JSON document response (docs.py lines 31-37); the `html` field is
produced by the external Markdown renderer and is not modelled.  The
`metadata` field is `none` when the parsed mapping is empty
(`metadata if metadata else None`). -/
structure DocResponse where
  path : String
  title : String
  content : String
  metadata : Option (List (String × String))
deriving DecidableEq

/-- Outcome of `get_doc`: HTTP 404, HTTP 500, or a successful response. -/
inductive DocResult where
  | notFound (path : String)
  | readError
  | ok (resp : DocResponse)
deriving DecidableEq

/-- String form of a pathlib relative path (`str(rel_path)`); an empty
relative path prints as ".". -/
def relStr (rel : List String) : String :=
  if rel = [] then "." else pyIntercalate "/" rel

/-- Embedding of `get_doc` (docs.py lines 199-243): resolve the logical
path (404 on failure), read the file (500 on failure), parse front-matter
and extract the title from the raw content, and report the resolved file's
root-relative path (`doc_file.relative_to(docs_root)`, a lexical
operation). -/
def get_doc (fs : FS) (root : List String) (path : String) : DocResult :=
  match find_doc_file fs root path with
  | none => .notFound path
  | some docFile =>
      match fs.read docFile with
      | none => .readError
      | some content =>
          let pm := parse_markdown content
          .ok { path := relStr (docFile.drop root.length)
                title := extract_title content
                content := content
                metadata := if pm.2 = [] then none else some pm.2 }

/-! Helper lemmas shared by several developments below. -/

theorem dropWhile_eq_self_of_head (f : Char → Bool) (l : List Char)
    (h : ∀ c, l.head? = some c → f c = false) : l.dropWhile f = l := by
  cases l with
  | nil => rfl
  | cons c t =>
      have hc : f c = false := h c rfl
      simp [List.dropWhile_cons, hc]

theorem trimWhile_eq_self (f : Char → Bool) (s : String)
    (h1 : ∀ c, s.toList.head? = some c → f c = false)
    (h2 : ∀ c, s.toList.getLast? = some c → f c = false) :
    trimWhile f s = s := by
  unfold trimWhile
  rw [dropWhile_eq_self_of_head f _ h1]
  rw [dropWhile_eq_self_of_head f _
    (fun c hc => h2 c (by rwa [List.head?_reverse] at hc))]
  rw [List.reverse_reverse]
  rfl

theorem listPre_append (l m : List Char) : listPre l (l ++ m) = true := by
  induction l with
  | nil => rfl
  | cons a as ih => simp [listPre, ih]

theorem toList_append (a b : String) : (a ++ b).toList = a.toList ++ b.toList :=
  String.data_append a b

theorem pyEndsWith_append (p t : String) : pyEndsWith (p ++ t) t = true := by
  unfold pyEndsWith
  rw [toList_append, List.reverse_append]
  exact listPre_append _ _

theorem toList_ne_nil (s : String) (h : s ≠ "") : s.toList ≠ [] := by
  intro hl
  apply h
  cases s with
  | mk data =>
      simp only [String.toList] at hl
      rw [hl]

theorem head?_append_left {α : Type} (l m : List α) (h : l ≠ []) :
    (l ++ m).head? = l.head? := by
  cases l with
  | nil => exact absurd rfl h
  | cons a t => rfl

theorem getLast?_append_right {α : Type} (l m : List α) (h : m ≠ []) :
    (l ++ m).getLast? = m.getLast? := by
  rw [← List.head?_reverse, List.reverse_append,
    head?_append_left _ _ (by simpa using h), List.head?_reverse]

theorem mem_insertByPath (e a : CatalogEntry) (l : List CatalogEntry) :
    a ∈ insertByPath e l ↔ a = e ∨ a ∈ l := by
  induction l with
  | nil => simp [insertByPath]
  | cons x xs ih =>
      simp only [insertByPath]
      split
      · simp [List.mem_cons]
      · simp only [List.mem_cons, ih]
        tauto

theorem mem_sortByPath (a : CatalogEntry) (l : List CatalogEntry) :
    a ∈ sortByPath l ↔ a ∈ l := by
  induction l with
  | nil => simp [sortByPath]
  | cons x xs ih => simp [sortByPath, mem_insertByPath, ih]

theorem dirFallback_shape (fs : FS) (d f : List String)
    (h : dirFallback fs d = some f) : ∃ seg, f = d ++ [seg] := by
  unfold dirFallback at h
  split at h
  · split at h
    · exact ⟨"README.md", (Option.some.inj h).symm⟩
    · split at h
      · exact ⟨"index.md", (Option.some.inj h).symm⟩
      · exact absurd h (by simp)
  · exact absurd h (by simp)

theorem find_doc_file_shape (fs : FS) (root : List String) (p : String)
    (f : List String) (h : find_doc_file fs root p = some f) :
    ∃ rest, f = root ++ rest := by
  simp only [find_doc_file] at h
  split at h
  · exact absurd h (by simp)
  · split at h
    · exact ⟨_, (Option.some.inj h).symm⟩
    · split at h
      · split at h
        · exact ⟨_, (Option.some.inj h).symm⟩
        · obtain ⟨seg, hseg⟩ := dirFallback_shape _ _ _ h
          exact ⟨_, by rw [hseg, List.append_assoc]⟩
      · obtain ⟨seg, hseg⟩ := dirFallback_shape _ _ _ h
        exact ⟨_, by rw [hseg, List.append_assoc]⟩

/-- Filesystem for the traversal scenario: the document root is
`/app/docs` and `/etc/passwd` is a regular file outside it. -/
def cexFS1 : FS :=
  ⟨[⟨["etc", "passwd"], some "root:x:0:0", 10⟩], [["app"], ["app", "docs"], ["etc"]]⟩

/-- C1: the claim that `find_doc_file` returns None for every logical path
resolving outside DocumentRoot is violated by the code: `find_doc_file`
performs no containment check, so `"../../../etc/passwd"` survives
`path.strip("/")` untouched, `docs_root / path` keeps the `..` segments,
and the filesystem existence check resolves them to `/etc/passwd`, a
regular file outside the root, which is returned and then served by
`get_doc` with its content. -/
theorem find_doc_file_traversal_escape :
    find_doc_file cexFS1 ["app", "docs"] "../../../etc/passwd" =
      some ["app", "docs", "..", "..", "..", "etc", "passwd"] ∧
    resolveDots [] ["app", "docs", "..", "..", "..", "etc", "passwd"] = ["etc", "passwd"] ∧
    (["etc", "passwd"].take 2 = ["app", "docs"]) = False ∧
    get_doc cexFS1 ["app", "docs"] "../../../etc/passwd" =
      .ok ⟨"../../../etc/passwd", "Documentation", "root:x:0:0", none⟩ := by
  refine ⟨by decide, by decide, ?_, by decide⟩
  simp only [eq_iff_iff, iff_false]
  decide

/-- Filesystem for the directory-index scenario: the root `r` contains a
directory `x` holding both `README.md` and `index.md`. -/
def cexFS2 : FS :=
  ⟨[⟨["r", "x", "README.md"], some "# X", 3⟩, ⟨["r", "x", "index.md"], some "# I", 3⟩],
   [["r"], ["r", "x"]]⟩

/-- C2: the directory-index fallback claim is violated by the code: for
the directory `x` containing `README.md` (and `index.md`),
`find_doc_file "x"` returns None instead of `x/README.md`, because the
Python local `doc_path` was reassigned to `root/x.md` by the
extension-inference step, so the `is_dir` check inspects `root/x.md`
rather than `root/x`. -/
theorem find_doc_file_dir_index_broken :
    cexFS2.osIsDir ["r", "x"] = true ∧
    cexFS2.osExists ["r", "x", "README.md"] = true ∧
    cexFS2.osExists ["r", "x", "index.md"] = true ∧
    find_doc_file cexFS2 ["r"] "x" = none := by
  decide

/-- Filesystem whose document root's own absolute path contains the
segment "architecture": root `architecture/docs` with one file `a.md`
directly inside it. -/
def cexFS3 : FS :=
  ⟨[⟨["architecture", "docs", "a.md"], some "# A", 3⟩],
   [["architecture"], ["architecture", "docs"]]⟩

/-- C3 counterexample: with DocumentRoot `architecture/docs`, the file
`a.md` (relative segments `["a.md"]`, which do not contain
"architecture") is nevertheless retained by `list("architecture")`,
because the code tests `category not in md_file.parts` against the full
on-disk path, whose root segments contain "architecture".  The claim's
root-independence is therefore false. -/
theorem list_docs_category_root_segment_cex :
    list_docs cexFS3 ["architecture", "docs"] (some "architecture") =
      [⟨"a.md", "A", 3, "root"⟩] ∧
    (["a.md"].contains "architecture") = false := by
  decide

/-- C3 as amended: for every supplied category filter `c`, `list(c)`
retains exactly the non-hidden candidate files whose FULL on-disk path
segments (the DocumentRoot's own segments included) contain `c` as one
whole component — exact segment equality, not substring match — so the
result does depend on the segments of the DocumentRoot's absolute path. -/
theorem list_docs_category_filter_full_path (fs : FS) (root : List String)
    (c : String) (e : CatalogEntry) :
    e ∈ list_docs fs root (some c) ↔
      ∃ fe, fe ∈ candidateFiles fs root ∧
        fe.path.any (fun part => pyStartsWith part ".") = false ∧
        fe.path.contains c = true ∧
        e = entryOf root fe := by
  simp only [list_docs, mem_sortByPath, List.mem_map, List.mem_filter, keepFile,
    Bool.and_eq_true, Bool.not_eq_true']
  constructor
  · rintro ⟨fe, ⟨hc, h1, h2⟩, he⟩
    exact ⟨fe, hc, h1, h2, he.symm⟩
  · rintro ⟨fe, hc, h1, h2, he⟩
    exact ⟨fe, ⟨hc, h1, h2⟩, he.symm⟩

theorem stripSlashes_eq_self (p : String)
    (hh : p.toList.head? ≠ some '/') (hl : p.toList.getLast? ≠ some '/') :
    stripSlashes p = p := by
  refine trimWhile_eq_self _ p ?_ ?_
  · exact fun c hc => decide_eq_false (fun hceq => hh (hceq ▸ hc))
  · exact fun c hc => decide_eq_false (fun hceq => hl (hceq ▸ hc))

theorem append_md_ne_empty (p : String) : p ++ ".md" ≠ "" := by
  intro h
  have h2 : (p ++ ".md").toList = [] := by rw [h]; rfl
  rw [toList_append] at h2
  exact absurd (List.append_eq_nil.mp h2).2 (by decide)

theorem stripSlashes_append_md (p : String) (hne : p ≠ "")
    (hh : p.toList.head? ≠ some '/') :
    stripSlashes (p ++ ".md") = p ++ ".md" := by
  refine trimWhile_eq_self _ _ ?_ ?_
  · intro c hc
    rw [toList_append, head?_append_left _ _ (toList_ne_nil p hne)] at hc
    exact decide_eq_false (fun hceq => hh (hceq ▸ hc))
  · intro c hc
    rw [toList_append, getLast?_append_right _ _ (by decide)] at hc
    have hd : c = 'd' := by
      have : (".md".toList.getLast? : Option Char) = some 'd' := by decide
      rw [this] at hc
      exact (Option.some.inj hc).symm
    rw [hd]
    decide

/-- C4: extension inference.  For a normalized logical path `p` (non-empty,
no leading or trailing slash) with no `.md`/`.markdown` suffix, such that
`root/p.md` resolves to a regular file while `root/p` does not,
`find_doc_file p` and `find_doc_file (p ++ ".md")` both succeed and return
the same file, namely `root/p.md`. -/
theorem resolve_extension_inference (fs : FS) (root : List String) (p : String)
    (hne : p ≠ "")
    (hh : p.toList.head? ≠ some '/')
    (hl : p.toList.getLast? ≠ some '/')
    (hmd : pyEndsWith p ".md" = false)
    (hmk : pyEndsWith p ".markdown" = false)
    (hfile : fs.osIsFile (root ++ pathParts (p ++ ".md")) = true)
    (hnotfile : fs.osIsFile (root ++ pathParts p) = false) :
    find_doc_file fs root p = some (root ++ pathParts (p ++ ".md")) ∧
      find_doc_file fs root (p ++ ".md") = some (root ++ pathParts (p ++ ".md")) := by
  have hex : fs.osExists (root ++ pathParts (p ++ ".md")) = true := by
    unfold FS.osExists
    rw [hfile, Bool.true_or]
  constructor
  · simp only [find_doc_file, stripSlashes_eq_self p hh hl]
    rw [if_neg hne, hnotfile, Bool.and_false, if_neg (by simp), hmd, hmk]
    simp only [Bool.or_self, Bool.not_false, if_true]
    rw [hex, hfile, Bool.and_self, if_pos rfl]
  · simp only [find_doc_file, stripSlashes_append_md p hne hh]
    rw [if_neg (append_md_ne_empty p), hex, hfile, Bool.and_self, if_pos rfl]

/-- Filesystem for the C4 witness: root `r` containing `a/b.md`. -/
def wFS4 : FS := ⟨[⟨["r", "a", "b.md"], some "# T", 3⟩], [["r"], ["r", "a"]]⟩

/-- Witness for C4 at the concrete input of the spec's example: requesting
`"a/b"` and `"a/b.md"` against a root holding `a/b.md`. -/
theorem resolve_extension_inference_witness :
    find_doc_file wFS4 ["r"] "a/b" = some (["r"] ++ pathParts ("a/b" ++ ".md")) ∧
      find_doc_file wFS4 ["r"] ("a/b" ++ ".md") = some (["r"] ++ pathParts ("a/b" ++ ".md")) :=
  resolve_extension_inference wFS4 ["r"] "a/b" (by decide) (by decide) (by decide)
    (by decide) (by decide) (by decide) (by decide)

/-- C5: front-matter parsing.  The example input parses to the mapping
`{title: Foo}` with body `"body"`; a front-matter line without a colon is
ignored; content that does not open with the delimiter is passed through
unchanged with an empty mapping; and a lone delimiter (fewer than three
split segments) likewise degrades to an empty mapping with the whole
content as the body.  `parse_markdown` is a total function, so no input
raises. -/
theorem parse_markdown_front_matter :
    parse_markdown "---\ntitle: Foo\n---\nbody" = ("body", [("title", "Foo")]) ∧
    parse_markdown "---\ntitle: Foo\nno colon line\n---\nbody" = ("body", [("title", "Foo")]) ∧
    (∀ c : String, pyStartsWith c "---" = false → parse_markdown c = (c, [])) ∧
    parse_markdown "---\nmalformed" = ("---\nmalformed", []) := by
  refine ⟨by decide, by decide, ?_, by decide⟩
  intro c h
  unfold parse_markdown
  rw [h]
  simp

/-- Witness for C5's universally quantified conjunct at the concrete
input "hello". -/
theorem parse_markdown_front_matter_witness :
    pyStartsWith "hello" "---" = false ∧ parse_markdown "hello" = ("hello", []) :=
  ⟨by decide, parse_markdown_front_matter.2.2.1 "hello" (by decide)⟩

/-- C6: error taxonomy of `get_doc`.  The request fails with NotFound
(404) exactly when resolution fails, fails with ReadError (500) exactly
when the resolved file cannot be read, and succeeds exactly when the
resolved file is readable — whatever its content, so malformed document
content is never an error.  The two failures are distinct constructors. -/
theorem get_doc_error_taxonomy (fs : FS) (root : List String) (p : String) :
    (get_doc fs root p = .notFound p ↔ find_doc_file fs root p = none) ∧
    (get_doc fs root p = .readError ↔
      ∃ f, find_doc_file fs root p = some f ∧ fs.read f = none) ∧
    ((∃ r, get_doc fs root p = .ok r) ↔
      ∃ f c, find_doc_file fs root p = some f ∧ fs.read f = some c) := by
  refine ⟨?_, ?_, ?_⟩ <;>
  · cases hf : find_doc_file fs root p with
    | none => simp [get_doc, hf]
    | some f =>
        cases hr : fs.read f with
        | none => simp [get_doc, hf, hr]
        | some c => simp [get_doc, hf, hr]

/-- Filesystem for the C7 counterexample: one document whose front-matter
block contains a heading-shaped line `# FM` while the body's first
heading is `# Body`. -/
def cexFS7 : FS := ⟨[⟨["r", "d.md"], some "---\n# FM\n---\n# Body", 19⟩], [["r"]]⟩

/-- C7 counterexample: the served title is "FM", taken from the
front-matter line, although the parsed body is `"# Body"` whose first
heading yields "Body" — so the title is not determined by the body alone,
refuting the claim. -/
theorem title_from_front_matter_cex :
    get_doc cexFS7 ["r"] "d.md" =
      .ok ⟨"d.md", "FM", "---\n# FM\n---\n# Body", none⟩ ∧
    (parse_markdown "---\n# FM\n---\n# Body").1 = "# Body" ∧
    extract_title "# Body" = "Body" ∧
    "FM" ≠ "Body" := by
  decide

/-- C7 as amended: title extraction inspects the full raw content,
front-matter included — the title of every successful `get_doc` response
is `extract_title` applied to the raw file content (not to the
front-matter-stripped body), so a front-matter line beginning with `"# "`
determines the title whenever it precedes the body's first such line. -/
theorem get_doc_title_from_raw_content (fs : FS) (root : List String) (p : String)
    (f : List String) (c : String)
    (hf : find_doc_file fs root p = some f) (hr : fs.read f = some c) :
    ∃ r, get_doc fs root p = .ok r ∧ r.title = extract_title c := by
  simp only [get_doc, hf, hr]
  exact ⟨_, rfl, rfl⟩

/-- Witness for C7's amended theorem at the counterexample document. -/
theorem get_doc_title_from_raw_content_witness :
    ∃ r, get_doc cexFS7 ["r"] "d.md" = .ok r ∧
      r.title = extract_title "---\n# FM\n---\n# Body" :=
  get_doc_title_from_raw_content cexFS7 ["r"] "d.md" ["r", "d.md"]
    "---\n# FM\n---\n# Body" (by decide) (by decide)

theorem extractTitleGo_eq_find? (l : List String) :
    extractTitleGo l =
      ((l.find? (fun s => pyStartsWith s "# ")).elim "Documentation"
        (fun s => pyStrip (String.mk (s.toList.drop 2)))) := by
  induction l with
  | nil => rfl
  | cons line rest ih =>
      cases hps : pyStartsWith line "# " with
      | false => simp [extractTitleGo, List.find?_cons, hps, ih]
      | true => simp [extractTitleGo, List.find?_cons, hps]

/-- C8: title extraction.  For every content string, `extract_title`
returns the stripped remainder (after the two characters `"# "`) of the
first line beginning with `"# "`, and the fixed placeholder
"Documentation" when no such line exists; in particular
`"# Hello\n\ntext"` yields "Hello" and heading-free content yields the
placeholder. -/
theorem extract_title_first_heading :
    (∀ content : String,
      extract_title content =
        (((pySplitOn "\n" content).find? (fun s => pyStartsWith s "# ")).elim
          "Documentation" (fun s => pyStrip (String.mk (s.toList.drop 2))))) ∧
    extract_title "# Hello\n\ntext" = "Hello" ∧
    extract_title "just text\nmore text" = "Documentation" := by
  refine ⟨?_, by decide, by decide⟩
  intro content
  exact extractTitleGo_eq_find? _

theorem mem_candidateFiles (fs : FS) (root : List String) (fe : FileEnt)
    (h : fe ∈ candidateFiles fs root) :
    fe ∈ fs.files ∧ fe.path.take root.length = root := by
  unfold candidateFiles at h
  rcases List.mem_append.mp h with h' | h' <;>
  · have hm := List.mem_filter.mp h'
    refine ⟨hm.1, ?_⟩
    have hb := hm.2
    rw [Bool.and_eq_true] at hb
    have hu := hb.1
    unfold underRoot at hu
    rw [Bool.and_eq_true] at hu
    exact of_decide_eq_true hu.1

/-- Filesystem for the C9 scenario: root `r` with an ordinary `a.md` and a
`notes.md` inside the hidden directory `.git`. -/
def wFS9 : FS :=
  ⟨[⟨["r", "a.md"], some "# A", 3⟩, ⟨["r", ".git", "notes.md"], some "# N", 3⟩],
   [["r"], ["r", ".git"]]⟩

/-- C9: hidden-directory exclusion.  Every entry of every listing comes
from a file none of whose root-relative segments begins with a dot — so a
file under a hidden directory never appears, for any category filter;
concretely, `.git/notes.md` is absent both from the unfiltered listing and
from the listing filtered by ".git" itself. -/
theorem list_docs_excludes_hidden :
    (∀ (fs : FS) (root : List String) (category : Option String) (e : CatalogEntry),
      e ∈ list_docs fs root category →
        ∃ fe, fe ∈ fs.files ∧ fe.path.take root.length = root ∧
          e = entryOf root fe ∧
          ∀ seg ∈ fe.path.drop root.length, pyStartsWith seg "." = false) ∧
    list_docs wFS9 ["r"] none = [⟨"a.md", "A", 3, "root"⟩] ∧
    list_docs wFS9 ["r"] (some ".git") = [] := by
  refine ⟨?_, by decide, by decide⟩
  intro fs root category e he
  simp only [list_docs, mem_sortByPath, List.mem_map, List.mem_filter] at he
  obtain ⟨fe, ⟨hcand, hkeep⟩, he⟩ := he
  obtain ⟨hmem, htake⟩ := mem_candidateFiles fs root fe hcand
  refine ⟨fe, hmem, htake, he.symm, ?_⟩
  intro seg hseg
  have hfull : seg ∈ fe.path := List.drop_subset _ _ hseg
  unfold keepFile at hkeep
  rw [Bool.and_eq_true] at hkeep
  have hnh := hkeep.1
  rw [Bool.not_eq_true'] at hnh
  have h2 := List.any_eq_false.mp hnh seg hfull
  exact Bool.eq_false_iff.mpr h2

/-- Witness for C9's universally quantified part: the visible entry of
`wFS9` is in the listing and is traced back to a dot-free file. -/
theorem list_docs_excludes_hidden_witness :
    (⟨"a.md", "A", 3, "root"⟩ : CatalogEntry) ∈ list_docs wFS9 ["r"] none ∧
    ∃ fe, fe ∈ wFS9.files ∧ fe.path.take (["r"].length) = ["r"] ∧
      (⟨"a.md", "A", 3, "root"⟩ : CatalogEntry) = entryOf ["r"] fe ∧
      ∀ seg ∈ fe.path.drop (["r"].length), pyStartsWith seg "." = false :=
  ⟨by decide,
   list_docs_excludes_hidden.1 wFS9 ["r"] none ⟨"a.md", "A", 3, "root"⟩ (by decide)⟩

/-- C10: the `path` field of a successful `get_doc` response is the
root-relative path (lexical `relative_to`) of the file that resolution
returned — the resolved on-disk file's identity, not the caller-supplied
logical path. -/
theorem get_doc_path_is_resolved_file (fs : FS) (root : List String) (p : String)
    (r : DocResponse) (h : get_doc fs root p = .ok r) :
    ∃ f, find_doc_file fs root p = some f ∧ (∃ rest, f = root ++ rest) ∧
      r.path = relStr (f.drop root.length) := by
  cases hf : find_doc_file fs root p with
  | none => simp [get_doc, hf] at h
  | some f =>
      cases hr : fs.read f with
      | none => simp [get_doc, hf, hr] at h
      | some c =>
          refine ⟨f, rfl, find_doc_file_shape fs root p f hf, ?_⟩
          simp only [get_doc, hf, hr] at h
          injection h with h
          rw [← h]

/-- Filesystem for the C10 witness: root `r` containing `a/b.md`. -/
def wFS10 : FS := ⟨[⟨["r", "a", "b.md"], some "# T\nbody", 8⟩], [["r"], ["r", "a"]]⟩

/-- Witness for C10: requesting `"a/b"` succeeds via extension inference
and the response's `path` field is `"a/b.md"`, which differs from the
caller-supplied logical path `"a/b"`. -/
theorem get_doc_path_is_resolved_file_witness :
    (∃ f, find_doc_file wFS10 ["r"] "a/b" = some f ∧ (∃ rest, f = ["r"] ++ rest) ∧
      (⟨"a/b.md", "T", "# T\nbody", none⟩ : DocResponse).path =
        relStr (f.drop (["r"].length))) ∧
    (⟨"a/b.md", "T", "# T\nbody", none⟩ : DocResponse).path ≠ "a/b" :=
  ⟨get_doc_path_is_resolved_file wFS10 ["r"] "a/b"
      ⟨"a/b.md", "T", "# T\nbody", none⟩ (by decide),
   by decide⟩

end DocsService
